import Mathlib

/-!
# Data-parallel distributed learner (CNTK v2 library)

A shallow embedding of `Source/CNTKv2LibraryDll/DataParallelDistributedLearner.cpp`.

* Tensors (`NDArrayView`) are held by value: a shape and a flat data buffer.  The
  in-place mutation that `AggregateInPlace` performs through the shared pointers
  is rendered as a positional write-back into `gradientValues` and `info`.
* The element arithmetic of the tensors (floating point in the program) is not
  fixed: every definition takes an `ElementOps` record giving the zero element,
  the addition used by the collective, and the two conversions
  `static_cast<double>(size_t)` and `static_cast<size_t>(double)`.
  `ieeeDouble` is a concrete instance: IEEE-754 binary64 restricted to the
  non-negative integers, with round-to-nearest-even.
* `size_t` is 64 bits wide; arithmetic on it wraps modulo `2 ^ 64`.
* The communicator and the wrapped local learner are external: they are
  records of functions.  Calls to the communicator are logged.
* `MinibatchInfo::IsEmpty` is declared outside the sources and is a parameter.
* For several workers, a round is run in lock step: every worker calls `Update`
  once, and the communicator hands each of them the element-wise sum of all lists.
-/

namespace CNTK

/-! ## Data model -/

/-- Number of values of a 64-bit `size_t`. -/
def SIZE_T_MOD : Nat := 2 ^ 64

/-- Tensor shape: the list of dimensions. -/
abbrev NDShape := List Nat

/-- Tensor held by value: its shape and its flat data buffer. -/
structure NDArrayView (α : Type) where
  shape : NDShape
  data : List α
deriving DecidableEq, Repr

/-- The constructor `NDArrayView(value, shape, device)`: a tensor of the given
shape with every element equal to `value`. -/
def NDArrayView.filled {α : Type} (value : α) (shape : NDShape) : NDArrayView α :=
  ⟨shape, List.replicate shape.prod value⟩

/-- Model parameter: only its identity and the shape of its value matter here. -/
structure Parameter where
  uid : Nat
  shape : NDShape
deriving DecidableEq, Repr

/-- The fields of `MinibatchInfo` that `Update` reads and writes. -/
structure MinibatchInfo (α : Type) where
  numberOfSamples : Nat
  trainingLossValue : NDArrayView α
  evalCriterionValue : NDArrayView α
deriving DecidableEq, Repr

/-- The vector of (parameter, gradient) pairs handed to `Update`. -/
abbrev GradientValues (α : Type) := List (Parameter × NDArrayView α)

/-- Element arithmetic of the tensors, left abstract: the zero element, the
addition performed by the collective, `static_cast<double>` of a `size_t`, and
`static_cast<size_t>` of a `double`. -/
structure ElementOps (α : Type) where
  zero : α
  add : α → α → α
  ofSizeT : Nat → α
  toSizeT : α → Nat

/-- The communicator capability: `Workers()` and `AggregateInPlace(values, workers)`.
The latter returns the contents of the tensors of `values` after the call. -/
structure DistributedCommunicator (α W : Type) where
  Workers : W
  AggregateInPlace : List (NDArrayView α) → W → List (NDArrayView α)

/-- The wrapped local learner: `Update(gradientValues, info, ignored)` returns its
boolean result together with the by-reference arguments as it leaves them. -/
structure Learner (α : Type) where
  Update : GradientValues α → MinibatchInfo α → Nat → Bool × GradientValues α × MinibatchInfo α

/-- A logged call on the communicator. -/
inductive CommunicatorCall (α W : Type) where
  | Workers : CommunicatorCall α W
  | AggregateInPlace (values : List (NDArrayView α)) (sendToWorkers : W) : CommunicatorCall α W

/-- Whether a logged call is an `AggregateInPlace`. -/
def CommunicatorCall.isAggregateInPlace {α W : Type} : CommunicatorCall α W → Bool
  | .Workers => false
  | .AggregateInPlace _ _ => true

/-- Errors raised by the library. -/
inductive CNTKError where
  | LogicError (message : String) : CNTKError
deriving DecidableEq, Repr

/-- The members of `DataParallelDistributedLearner` (inherited from
`DistributedLearnerBase`) that the source uses. -/
structure DataParallelDistributedLearner (α W : Type) where
  m_communicator : DistributedCommunicator α W
  m_learner : Learner α
  m_distributeAfterSamples : Nat
  m_totalNumberOfSamplesSeen : Nat

/-! ## Construction -/

/-- Modelled from the spec: the constructor of `DistributedLearnerBase` is not
among the sources.  The spec describes it as bookkeeping only: it is constructed
with a communicator, an ordered list of local learners and the sample threshold,
and tracks the cumulative samples seen; before any round that count is zero (in the
spec's scenario two workers bringing 5 samples each stand at 10 after round 1).
How the list of learners is combined into the single `m_learner` is the parameter
`composite`. -/
def DistributedLearnerBase {α W : Type} (composite : List (Learner α) → Learner α)
    (communicator : DistributedCommunicator α W) (learners : List (Learner α))
    (distributeAfterSamples : Nat) : DataParallelDistributedLearner α W :=
  { m_communicator := communicator
    m_learner := composite learners
    m_distributeAfterSamples := distributeAfterSamples
    m_totalNumberOfSamplesSeen := 0 }

/-- The constructor `DataParallelDistributedLearner::DataParallelDistributedLearner`. -/
def DataParallelDistributedLearner.new {α W : Type} (composite : List (Learner α) → Learner α)
    (communicator : DistributedCommunicator α W) (learners : List (Learner α))
    (distributedAfterSamples : Nat) (useAsyncBufferedParameterUpdate : Bool) :
    Except CNTKError (DataParallelDistributedLearner α W) :=
  let base := DistributedLearnerBase composite communicator learners distributedAfterSamples
  if useAsyncBufferedParameterUpdate then
    .error (.LogicError "Asynchronous parameter update is not yet supported.")
  else
    .ok base

/-- The factory `CreateDataParallelDistributedLearner`. -/
def CreateDataParallelDistributedLearner {α W : Type} (composite : List (Learner α) → Learner α)
    (communicator : DistributedCommunicator α W) (learners : List (Learner α))
    (distributedAfterSamples : Nat) (useAsyncBufferedParameterUpdate : Bool) :
    Except CNTKError (DataParallelDistributedLearner α W) :=
  DataParallelDistributedLearner.new composite communicator learners distributedAfterSamples
    useAsyncBufferedParameterUpdate

/-! ## The build-time gate

`CNTK_PARALLEL_TRAINING_SUPPORT` is a parameter.  The classes instantiated in
the supported build are not among the sources; their constructors are the
parameter `make`. -/

/-- The factory `QuantizedMPICommunicator`. -/
def QuantizedMPICommunicator {Q : Type} (CNTK_PARALLEL_TRAINING_SUPPORT : Bool)
    (make : Bool → Bool → Nat → Q)
    (zeroThresholdFor1Bit useQuantizationForSelfStripe : Bool) (numQuantizationBits : Nat) :
    Except CNTKError Q :=
  if CNTK_PARALLEL_TRAINING_SUPPORT then
    .ok (make zeroThresholdFor1Bit useQuantizationForSelfStripe numQuantizationBits)
  else
    .error (.LogicError "Quantized MPI Communicator is not supported for this build. The 1BitSGD build is needed, see CNTK wiki for details.")

/-- The factory `CreateQuantizedDataParallelDistributedLearner`. -/
def CreateQuantizedDataParallelDistributedLearner {Q L D : Type}
    (CNTK_PARALLEL_TRAINING_SUPPORT : Bool) (make : Q → List L → Nat → Bool → D)
    (communicator : Q) (learners : List L) (distributeAfterSamples : Nat)
    (useAsyncBufferedParameterUpdate : Bool) : Except CNTKError D :=
  if CNTK_PARALLEL_TRAINING_SUPPORT then
    .ok (make communicator learners distributeAfterSamples useAsyncBufferedParameterUpdate)
  else
    .error (.LogicError "Quantized Distributed Trainer is not supported for this build. The 1BitSGD build is needed, see CNTK wiki for details.")

/-- The first overload of `CreateBlockMomentumDistributedLearner` (no time constant). -/
def CreateBlockMomentumDistributedLearner {C L R D : Type}
    (CNTK_PARALLEL_TRAINING_SUPPORT : Bool) (make : C → List L → Nat → Nat → Bool → Bool → R → D)
    (communicator : C) (learners : List L) (distributeAfterSamples blockSize : Nat)
    (useNestrovMomentum resetSGDMomentumAfterAggregation : Bool) (blockLearningRate : R) :
    Except CNTKError D :=
  if CNTK_PARALLEL_TRAINING_SUPPORT then
    .ok (make communicator learners distributeAfterSamples blockSize useNestrovMomentum
      resetSGDMomentumAfterAggregation blockLearningRate)
  else
    .error (.LogicError "Block Momentum Distributed Trainer is not supported for this build. The 1BitSGD build is needed, see CNTK wiki for details.")

/-- The second overload of `CreateBlockMomentumDistributedLearner`
(with `blockMomentumAsTimeConstant`). -/
def CreateBlockMomentumDistributedLearnerTimeConstant {C L R D : Type}
    (CNTK_PARALLEL_TRAINING_SUPPORT : Bool)
    (make : C → List L → Nat → Nat → Bool → Bool → R → R → D)
    (communicator : C) (learners : List L) (distributeAfterSamples blockSize : Nat)
    (blockMomentumAsTimeConstant : R)
    (useNestrovMomentum resetSGDMomentumAfterAggregation : Bool) (blockLearningRate : R) :
    Except CNTKError D :=
  if CNTK_PARALLEL_TRAINING_SUPPORT then
    .ok (make communicator learners distributeAfterSamples blockSize useNestrovMomentum
      resetSGDMomentumAfterAggregation blockLearningRate blockMomentumAsTimeConstant)
  else
    .error (.LogicError "Block Momentum Distributed Trainer is not supported for this build. The 1BitSGD build is needed, see CNTK wiki for details.")

/-- The text every error of the gate carries. -/
def notSupportedText : List Char := "not supported for this build".toList

/-! ## `Update` -/

/-- Modelled from the spec: `DistributedLearnerBase::PrepaireZeroGradients` is not
among the sources.  The spec: it synthesizes zero-valued gradient tensors matching
the shape of each parameter and zero-valued loss and criterion scalars.  The sample
count is left as it is.  The spec adds that `info` is marked non-empty for the
aggregation; emptiness is decided by the parameter `IsEmpty` here, which `Update`
next consults only after the local learner has run, so there is nothing to record. -/
def PrepaireZeroGradients {α : Type} (E : ElementOps α) (gradientValues : GradientValues α)
    (info : MinibatchInfo α) : GradientValues α × MinibatchInfo α :=
  (gradientValues.map (fun g => (g.1, NDArrayView.filled E.zero g.1.shape)),
   { numberOfSamples := info.numberOfSamples
     trainingLossValue := NDArrayView.filled E.zero [1]
     evalCriterionValue := NDArrayView.filled E.zero [1] })

/-- Lines 126-127: the zero substitution made when `info.IsEmpty()`. -/
def substituteIfEmpty {α : Type} (E : ElementOps α) (IsEmpty : MinibatchInfo α → Bool)
    (gradientValues : GradientValues α) (info : MinibatchInfo α) :
    GradientValues α × MinibatchInfo α :=
  if IsEmpty info then PrepaireZeroGradients E gradientValues info else (gradientValues, info)

/-- Lines 129-136: the vector `valuesToAggregate`. -/
def valuesToAggregate {α : Type} (E : ElementOps α) (gradientValues : GradientValues α)
    (info : MinibatchInfo α) : List (NDArrayView α) :=
  gradientValues.map (fun i => i.2)
    ++ [info.evalCriterionValue, info.trainingLossValue,
        NDArrayView.filled (E.ofSizeT info.numberOfSamples) [1]]

/-- What a worker hands to the collective in an aggregating round (lines 126-136). -/
def contribution {α : Type} (E : ElementOps α) (IsEmpty : MinibatchInfo α → Bool)
    (gradientValues : GradientValues α) (info : MinibatchInfo α) : List (NDArrayView α) :=
  valuesToAggregate E (substituteIfEmpty E IsEmpty gradientValues info).1
    (substituteIfEmpty E IsEmpty gradientValues info).2

/-- The gradient tensors after the in-place collective: position by position the
tensor of `gradientValues` now holds what the collective left there. -/
def writeBack {α : Type} : GradientValues α → List (NDArrayView α) → GradientValues α
  | [], _ => []
  | g :: gs, [] => g :: gs
  | g :: gs, v :: vs => (g.1, v) :: writeBack gs vs

/-- Line 139: `static_cast<size_t>(*valuesToAggregate.back()->WritableDataBuffer<double>())`,
read from the tensors as the collective left them.  `fresh` is the tensor pushed last.
The value is stored in a `size_t`, hence the reduction modulo `2 ^ 64`; C++ leaves the
conversion of a double outside the range of `size_t` undefined, and no theorem below
relies on what it yields there. -/
def readBackNumberOfSamples {α : Type} (E : ElementOps α) (aggregated : List (NDArrayView α))
    (fresh : NDArrayView α) : Nat :=
  E.toSizeT ((aggregated.getLastD fresh).data.headD E.zero) % SIZE_T_MOD

/-- What `Update` leaves behind. -/
structure UpdateResult (α W : Type) where
  /-- The boolean returned. -/
  returned : Bool
  /-- The learner after the call. -/
  self : DataParallelDistributedLearner α W
  /-- The by-reference argument `gradientValues` on return. -/
  gradientValues : GradientValues α
  /-- The by-reference argument `info` on return. -/
  info : MinibatchInfo α
  /-- The out-parameter `totalNumberOfSampleSeen`. -/
  totalNumberOfSampleSeen : Nat
  /-- The calls made on the communicator, in order. -/
  communicatorCalls : List (CommunicatorCall α W)
  /-- The `gradientValues` handed to the local learner. -/
  learnerGradientValues : GradientValues α
  /-- The `info` handed to the local learner. -/
  learnerInfo : MinibatchInfo α
  /-- The boolean the local learner returned. -/
  learnerResult : Bool

/-- Lines 124-140: the aggregation step.  Returns `gradientValues` and `info` as they
stand after it, and the communicator calls made. -/
def aggregationStep {α W : Type} (E : ElementOps α) (IsEmpty : MinibatchInfo α → Bool)
    (self : DataParallelDistributedLearner α W) (gradientValues : GradientValues α)
    (info : MinibatchInfo α) :
    GradientValues α × MinibatchInfo α × List (CommunicatorCall α W) :=
  if self.m_totalNumberOfSamplesSeen ≥ self.m_distributeAfterSamples then
    let prepared := substituteIfEmpty E IsEmpty gradientValues info
    let values := valuesToAggregate E prepared.1 prepared.2
    let workers := self.m_communicator.Workers
    let aggregated := self.m_communicator.AggregateInPlace values workers
    let n := prepared.1.length
    (writeBack prepared.1 aggregated,
     { numberOfSamples :=
         readBackNumberOfSamples E aggregated
           (NDArrayView.filled (E.ofSizeT prepared.2.numberOfSamples) [1])
       trainingLossValue := aggregated.getD (n + 1) prepared.2.trainingLossValue
       evalCriterionValue := aggregated.getD n prepared.2.evalCriterionValue },
     [.Workers, .AggregateInPlace values workers])
  else
    (gradientValues, info, [])

/-- The method `DataParallelDistributedLearner::Update`. -/
def DataParallelDistributedLearner.Update {α W : Type} (E : ElementOps α)
    (IsEmpty : MinibatchInfo α → Bool) (self : DataParallelDistributedLearner α W)
    (gradientValues : GradientValues α) (info : MinibatchInfo α) : UpdateResult α W :=
  let step := aggregationStep E IsEmpty self gradientValues info
  let total := (self.m_totalNumberOfSamplesSeen + step.2.1.numberOfSamples) % SIZE_T_MOD
  let ignored := 0
  let result := self.m_learner.Update step.1 step.2.1 ignored
  { returned := result.1 && !IsEmpty result.2.2
    self :=
      { m_communicator := self.m_communicator
        m_learner := self.m_learner
        m_distributeAfterSamples := self.m_distributeAfterSamples
        m_totalNumberOfSamplesSeen := total }
    gradientValues := result.2.1
    info := result.2.2
    totalNumberOfSampleSeen := total
    communicatorCalls := step.2.2
    learnerGradientValues := step.1
    learnerInfo := step.2.1
    learnerResult := result.1 }

/-! ## The collective, and workers running in lock step -/

/-- Modelled from the spec: the element-wise sum the collective performs on one
tensor, delivered in place (the receiving tensor keeps its shape). -/
def addInPlace {α : Type} (E : ElementOps α) (x y : NDArrayView α) : NDArrayView α :=
  ⟨x.shape, List.zipWith E.add x.data y.data⟩

/-- Modelled from the spec: the position-by-position sum of two lists of tensors. -/
def addLists {α : Type} (E : ElementOps α) (xs ys : List (NDArrayView α)) :
    List (NDArrayView α) :=
  List.zipWith (addInPlace E) xs ys

/-- Modelled from the spec: the communicator implementation is not among the sources.
The spec describes `AggregateInPlace` as an all-reduce that sums a list of tensors
element-wise across all participants and returns the same summed values to every
participant.  The lists of the workers are summed in rank order. -/
def allReduceSum {α : Type} (E : ElementOps α) : List (List (NDArrayView α)) → List (NDArrayView α)
  | [] => []
  | c :: cs => cs.foldl (addLists E) c

/-- The communicator as one worker sees it in a round in which every worker takes part:
its own list is summed with the lists of the workers of lower rank (`before`) and of
higher rank (`after`). -/
def summingCommunicator {α : Type} (E : ElementOps α) (workers : List Nat)
    (before after : List (List (NDArrayView α))) : DistributedCommunicator α (List Nat) :=
  { Workers := workers
    AggregateInPlace := fun values _ => allReduceSum E (before ++ values :: after) }

/-- One worker at the start of a round: its counters, its local learner, and the
minibatch it brings to `Update`. -/
structure WorkerTurn (α : Type) where
  m_distributeAfterSamples : Nat
  m_totalNumberOfSamplesSeen : Nat
  m_learner : Learner α
  gradientValues : GradientValues α
  info : MinibatchInfo α

/-- Whether this worker takes the aggregating branch of `Update` (line 124). -/
def WorkerTurn.aggregates {α : Type} (t : WorkerTurn α) : Bool :=
  decide (t.m_totalNumberOfSamplesSeen ≥ t.m_distributeAfterSamples)

/-- The list this worker hands to the collective. -/
def WorkerTurn.contribution {α : Type} (E : ElementOps α) (IsEmpty : MinibatchInfo α → Bool)
    (t : WorkerTurn α) : List (NDArrayView α) :=
  CNTK.contribution E IsEmpty t.gradientValues t.info

/-- The call of `Update` one worker makes, given the lists of the other workers. -/
def WorkerTurn.update {α : Type} (E : ElementOps α) (IsEmpty : MinibatchInfo α → Bool)
    (workers : List Nat) (before after : List (List (NDArrayView α))) (t : WorkerTurn α) :
    UpdateResult α (List Nat) :=
  DataParallelDistributedLearner.Update E IsEmpty
    { m_communicator := summingCommunicator E workers before after
      m_learner := t.m_learner
      m_distributeAfterSamples := t.m_distributeAfterSamples
      m_totalNumberOfSamplesSeen := t.m_totalNumberOfSamplesSeen }
    t.gradientValues t.info

/-- Every worker of `todo` calls `Update`; `done` holds the lists of the workers of
lower rank. -/
def runWorkers {α : Type} (E : ElementOps α) (IsEmpty : MinibatchInfo α → Bool)
    (workers : List Nat) : List (List (NDArrayView α)) → List (WorkerTurn α) →
    List (UpdateResult α (List Nat))
  | _, [] => []
  | done, t :: rest =>
    t.update E IsEmpty workers done (rest.map (WorkerTurn.contribution E IsEmpty))
      :: runWorkers E IsEmpty workers (done ++ [t.contribution E IsEmpty]) rest

/-- One round in lock step.  The collective needs every worker: a round in which some
workers aggregate and others do not never completes (`none`). -/
def lockStepRound {α : Type} (E : ElementOps α) (IsEmpty : MinibatchInfo α → Bool)
    (turns : List (WorkerTurn α)) : Option (List (UpdateResult α (List Nat))) :=
  if turns.all (fun t => t.aggregates) || turns.all (fun t => !t.aggregates) then
    some (runWorkers E IsEmpty (List.range turns.length) [] turns)
  else
    none

/-- One worker over several rounds: its counters and, for each round, the local
learner and the minibatch of that round. -/
structure Worker (α : Type) where
  m_distributeAfterSamples : Nat
  m_totalNumberOfSamplesSeen : Nat
  feed : Nat → Learner α × GradientValues α × MinibatchInfo α

/-- The turn of a worker in round `r`. -/
def Worker.turn {α : Type} (w : Worker α) (r : Nat) : WorkerTurn α :=
  { m_distributeAfterSamples := w.m_distributeAfterSamples
    m_totalNumberOfSamplesSeen := w.m_totalNumberOfSamplesSeen
    m_learner := (w.feed r).1
    gradientValues := (w.feed r).2.1
    info := (w.feed r).2.2 }

/-- The worker after its `Update` of the round. -/
def Worker.advance {α : Type} (w : Worker α) (res : UpdateResult α (List Nat)) : Worker α :=
  { m_distributeAfterSamples := res.self.m_distributeAfterSamples
    m_totalNumberOfSamplesSeen := res.self.m_totalNumberOfSamplesSeen
    feed := w.feed }

/-- The workers run `rounds` rounds in lock step, starting with round `r`. -/
def lockStepRun {α : Type} (E : ElementOps α) (IsEmpty : MinibatchInfo α → Bool) :
    (rounds : Nat) → (r : Nat) → List (Worker α) → Option (List (Worker α))
  | 0, _, ws => some ws
  | rounds + 1, r, ws =>
    match lockStepRound E IsEmpty (ws.map (fun w => w.turn r)) with
    | none => none
    | some results => lockStepRun E IsEmpty rounds (r + 1) (List.zipWith Worker.advance ws results)

/-! ## A concrete element arithmetic: binary64 on the non-negative integers -/

/-- The exponent of the unit in the last place of the binary64 nearest to `n`:
zero below `2 ^ 53`, and one more for each further bit.  The fuel covers the
finite range of binary64. -/
def ulpExponent : Nat → Nat → Nat
  | 0, _ => 0
  | fuel + 1, n => if n < 2 ^ 53 then 0 else ulpExponent fuel (n / 2) + 1

/-- The binary64 nearest to the integer `n`, ties to even (values below `2 ^ 1024`). -/
def roundToDouble (n : Nat) : Nat :=
  let e := ulpExponent 1024 n
  let q := n / 2 ^ e
  let r := n % 2 ^ e
  if 2 * r < 2 ^ e then q * 2 ^ e
  else if 2 ^ e < 2 * r then (q + 1) * 2 ^ e
  else if q % 2 = 0 then q * 2 ^ e
  else (q + 1) * 2 ^ e

/-- Binary64 restricted to the non-negative integers: addition is the correctly
rounded sum, a `size_t` converts to the nearest binary64, and a binary64 that is
an integer below `2 ^ 64` converts back to itself. -/
def ieeeDouble : ElementOps Nat :=
  { zero := 0
    add := fun a b => roundToDouble (a + b)
    ofSizeT := roundToDouble
    toSizeT := fun x => x }

/-- Modelled from the spec: the declaration of `MinibatchInfo` is not among the
sources.  The spec: `numberOfSamples` is 0 if the minibatch is empty. -/
def isEmptyByCount {α : Type} (info : MinibatchInfo α) : Bool :=
  info.numberOfSamples == 0

/-- A local learner that applies nothing, leaves its arguments alone and asks to go on. -/
def idleLearner {α : Type} : Learner α :=
  { Update := fun gradientValues info _ => (true, gradientValues, info) }

/-- A scalar tensor. -/
def scalar {α : Type} (x : α) : NDArrayView α := ⟨[1], [x]⟩

/-- A minibatch over one scalar parameter: the gradient `g`, zero statistics, `n` samples. -/
def simpleBatch (g n : Nat) : GradientValues Nat × MinibatchInfo Nat :=
  ([(⟨0, [1]⟩, scalar g)], ⟨n, scalar 0, scalar 0⟩)

/-- A list of tensors ends with a scalar tensor holding `a` after `n` other tensors. -/
def EndsWithCount {α : Type} (n : Nat) (a : α) (c : List (NDArrayView α)) : Prop :=
  ∃ front : List (NDArrayView α), front.length = n ∧ c = front ++ [⟨[1], [a]⟩]

/-- The count the collective holds after summing the local counts as binary64, in
rank order. -/
def doubleSum : List Nat → Nat
  | [] => 0
  | c :: cs => (cs.map roundToDouble).foldl (fun a b => roundToDouble (a + b)) (roundToDouble c)

/-! ## Concrete rounds -/

/-- A worker's turn over one scalar parameter with an idle local learner. -/
def simpleTurn (threshold seen g n : Nat) : WorkerTurn Nat :=
  { m_distributeAfterSamples := threshold
    m_totalNumberOfSamplesSeen := seen
    m_learner := idleLearner
    gradientValues := (simpleBatch g n).1
    info := (simpleBatch g n).2 }

/-- Three workers with threshold 0 bringing 10, 0 and 25 samples. -/
def threeWorkers : List (WorkerTurn Nat) :=
  [simpleTurn 0 0 1 10, simpleTurn 0 0 3 0, simpleTurn 0 0 7 25]

/-- Two workers with threshold 0 bringing `2 ^ 53` samples and 1 sample. -/
def largeCountWorkers : List (WorkerTurn Nat) :=
  [simpleTurn 0 0 1 9007199254740992, simpleTurn 0 0 3 1]

/-- Two workers with threshold 0, both without data. -/
def idleWorkers : List (WorkerTurn Nat) :=
  [simpleTurn 0 0 0 0, simpleTurn 0 0 0 0]

/-- Two workers with threshold 10 that start at 0: in round 0 they bring 10 and 12
samples, in every later round 5 samples each. -/
def warmupWorkers : List (Worker Nat) :=
  [{ m_distributeAfterSamples := 10
     m_totalNumberOfSamplesSeen := 0
     feed := fun r => (idleLearner, simpleBatch 1 (if r = 0 then 10 else 5)) },
   { m_distributeAfterSamples := 10
     m_totalNumberOfSamplesSeen := 0
     feed := fun r => (idleLearner, simpleBatch 3 (if r = 0 then 12 else 5)) }]

/-- Two workers with threshold 0 that start at 0 and bring different counts each round. -/
def immediateWorkers : List (Worker Nat) :=
  [{ m_distributeAfterSamples := 0
     m_totalNumberOfSamplesSeen := 0
     feed := fun r => (idleLearner, simpleBatch 1 (10 + r)) },
   { m_distributeAfterSamples := 0
     m_totalNumberOfSamplesSeen := 0
     feed := fun r => (idleLearner, simpleBatch 3 (2 * r)) }]

/-! ## Helper lemmas -/

theorem substituteIfEmpty_numberOfSamples {α : Type} (E : ElementOps α)
    (IsEmpty : MinibatchInfo α → Bool) (gv : GradientValues α) (info : MinibatchInfo α) :
    (substituteIfEmpty E IsEmpty gv info).2.numberOfSamples = info.numberOfSamples := by
  unfold substituteIfEmpty PrepaireZeroGradients
  split <;> rfl

theorem substituteIfEmpty_length {α : Type} (E : ElementOps α)
    (IsEmpty : MinibatchInfo α → Bool) (gv : GradientValues α) (info : MinibatchInfo α) :
    (substituteIfEmpty E IsEmpty gv info).1.length = gv.length := by
  unfold substituteIfEmpty PrepaireZeroGradients
  split <;> simp

theorem substituteIfEmpty_parameters {α : Type} (E : ElementOps α)
    (IsEmpty : MinibatchInfo α → Bool) (gv : GradientValues α) (info : MinibatchInfo α) :
    (substituteIfEmpty E IsEmpty gv info).1.map (fun g => g.1) = gv.map (fun g => g.1) := by
  unfold substituteIfEmpty PrepaireZeroGradients
  split <;> simp [Function.comp_def]

theorem aggregationStep_below {α W : Type} (E : ElementOps α) (IsEmpty : MinibatchInfo α → Bool)
    (self : DataParallelDistributedLearner α W) (gv : GradientValues α) (info : MinibatchInfo α)
    (h : self.m_totalNumberOfSamplesSeen < self.m_distributeAfterSamples) :
    aggregationStep E IsEmpty self gv info = (gv, info, []) := by
  unfold aggregationStep
  rw [if_neg (by omega)]

theorem aggregationStep_calls {α W : Type} (E : ElementOps α) (IsEmpty : MinibatchInfo α → Bool)
    (self : DataParallelDistributedLearner α W) (gv : GradientValues α) (info : MinibatchInfo α)
    (h : self.m_distributeAfterSamples ≤ self.m_totalNumberOfSamplesSeen) :
    (aggregationStep E IsEmpty self gv info).2.2 =
      [.Workers, .AggregateInPlace (contribution E IsEmpty gv info) self.m_communicator.Workers] := by
  unfold aggregationStep contribution
  rw [if_pos (by omega)]

theorem aggregationStep_numberOfSamples {α W : Type} (E : ElementOps α)
    (IsEmpty : MinibatchInfo α → Bool)
    (self : DataParallelDistributedLearner α W) (gv : GradientValues α) (info : MinibatchInfo α)
    (h : self.m_distributeAfterSamples ≤ self.m_totalNumberOfSamplesSeen) :
    (aggregationStep E IsEmpty self gv info).2.1.numberOfSamples =
      readBackNumberOfSamples E
        (self.m_communicator.AggregateInPlace (contribution E IsEmpty gv info)
          self.m_communicator.Workers)
        (NDArrayView.filled (E.ofSizeT info.numberOfSamples) [1]) := by
  unfold aggregationStep contribution
  rw [if_pos (by omega)]
  simp only [substituteIfEmpty_numberOfSamples]

/-! ## Theorems on a single call of `Update` -/

/-- C1 (threshold gating): `Update` calls `AggregateInPlace` exactly when
`m_totalNumberOfSamplesSeen >= m_distributeAfterSamples` at entry, and then exactly
once; below the threshold it makes no call on the communicator and hands the
caller's `gradientValues` and `info` to the local learner unchanged; with a
threshold of 0 every call aggregates. -/
theorem Update_threshold_gating {α W : Type} (E : ElementOps α)
    (IsEmpty : MinibatchInfo α → Bool) (self : DataParallelDistributedLearner α W)
    (gv : GradientValues α) (info : MinibatchInfo α) :
    ((self.Update E IsEmpty gv info).communicatorCalls.countP
        CommunicatorCall.isAggregateInPlace
      = if self.m_distributeAfterSamples ≤ self.m_totalNumberOfSamplesSeen then 1 else 0)
    ∧ ((∃ c ∈ (self.Update E IsEmpty gv info).communicatorCalls, c.isAggregateInPlace = true)
        ↔ self.m_distributeAfterSamples ≤ self.m_totalNumberOfSamplesSeen)
    ∧ (self.m_totalNumberOfSamplesSeen < self.m_distributeAfterSamples →
        (self.Update E IsEmpty gv info).communicatorCalls = []
        ∧ (self.Update E IsEmpty gv info).learnerGradientValues = gv
        ∧ (self.Update E IsEmpty gv info).learnerInfo = info)
    ∧ (self.m_distributeAfterSamples = 0 →
        (self.Update E IsEmpty gv info).communicatorCalls.countP
          CommunicatorCall.isAggregateInPlace = 1) := by
  by_cases h : self.m_distributeAfterSamples ≤ self.m_totalNumberOfSamplesSeen
  · have hc := aggregationStep_calls E IsEmpty self gv info h
    simp only [DataParallelDistributedLearner.Update, hc, if_pos h]
    refine ⟨by simp [List.countP_cons, CommunicatorCall.isAggregateInPlace], ?_, ?_, ?_⟩
    · simp [CommunicatorCall.isAggregateInPlace, h]
    · intro h'; omega
    · intro _; simp [List.countP_cons, CommunicatorCall.isAggregateInPlace]
  · have hb := aggregationStep_below E IsEmpty self gv info (by omega)
    simp only [DataParallelDistributedLearner.Update, hb, if_neg h]
    refine ⟨by simp, by simp [h], fun _ => by simp, fun h0 => by omega⟩

/-- Witness of C1: a learner with threshold 100 that has seen 40 samples makes no
communicator call and passes the minibatch on unchanged. -/
theorem Update_threshold_gating_witness :
    (40 : Nat) < 100
    ∧ (DataParallelDistributedLearner.Update ieeeDouble isEmptyByCount
        ⟨summingCommunicator ieeeDouble [0] [] [], idleLearner, 100, 40⟩
        (simpleBatch 1 5).1 (simpleBatch 1 5).2).communicatorCalls = []
    ∧ (DataParallelDistributedLearner.Update ieeeDouble isEmptyByCount
        ⟨summingCommunicator ieeeDouble [0] [] [], idleLearner, 100, 40⟩
        (simpleBatch 1 5).1 (simpleBatch 1 5).2).learnerGradientValues = (simpleBatch 1 5).1
    ∧ (DataParallelDistributedLearner.Update ieeeDouble isEmptyByCount
        ⟨summingCommunicator ieeeDouble [0] [] [], idleLearner, 100, 40⟩
        (simpleBatch 1 5).1 (simpleBatch 1 5).2).learnerInfo = (simpleBatch 1 5).2 :=
  ⟨by decide,
   (Update_threshold_gating ieeeDouble isEmptyByCount
      ⟨summingCommunicator ieeeDouble [0] [] [], idleLearner, 100, 40⟩
      (simpleBatch 1 5).1 (simpleBatch 1 5).2).2.2.1 (by decide)⟩

/-- C3 (continuation signal): `Update` returns false if and only if the local learner
returned false or `info` is empty once the local learner has run; it returns true if
and only if the local learner returned true and that `info` is not empty.  The local
learner is called on the `gradientValues` and `info` left by the aggregation step. -/
theorem Update_continuation_signal {α W : Type} (E : ElementOps α)
    (IsEmpty : MinibatchInfo α → Bool) (self : DataParallelDistributedLearner α W)
    (gv : GradientValues α) (info : MinibatchInfo α) :
    ((self.Update E IsEmpty gv info).returned = false
        ↔ (self.Update E IsEmpty gv info).learnerResult = false
          ∨ IsEmpty (self.Update E IsEmpty gv info).info = true)
    ∧ ((self.Update E IsEmpty gv info).returned = true
        ↔ (self.Update E IsEmpty gv info).learnerResult = true
          ∧ IsEmpty (self.Update E IsEmpty gv info).info = false)
    ∧ (self.Update E IsEmpty gv info).learnerResult
        = (self.m_learner.Update (self.Update E IsEmpty gv info).learnerGradientValues
            (self.Update E IsEmpty gv info).learnerInfo 0).1
    ∧ (self.Update E IsEmpty gv info).info
        = (self.m_learner.Update (self.Update E IsEmpty gv info).learnerGradientValues
            (self.Update E IsEmpty gv info).learnerInfo 0).2.2
    ∧ (self.Update E IsEmpty gv info).learnerGradientValues
        = (aggregationStep E IsEmpty self gv info).1
    ∧ (self.Update E IsEmpty gv info).learnerInfo
        = (aggregationStep E IsEmpty self gv info).2.1 := by
  refine ⟨?_, ?_, rfl, rfl, rfl, rfl⟩
  · simp only [DataParallelDistributedLearner.Update]
    cases (self.m_learner.Update (aggregationStep E IsEmpty self gv info).1
      (aggregationStep E IsEmpty self gv info).2.1 0).1 <;>
    cases IsEmpty (self.m_learner.Update (aggregationStep E IsEmpty self gv info).1
      (aggregationStep E IsEmpty self gv info).2.1 0).2.2 <;> simp
  · simp only [DataParallelDistributedLearner.Update]
    cases (self.m_learner.Update (aggregationStep E IsEmpty self gv info).1
      (aggregationStep E IsEmpty self gv info).2.1 0).1 <;>
    cases IsEmpty (self.m_learner.Update (aggregationStep E IsEmpty self gv info).1
      (aggregationStep E IsEmpty self gv info).2.1 0).2.2 <;> simp

/-- C6 (counter update): after `Update` the counter is its value at entry plus
`info.numberOfSamples` as it stands after the aggregation step, modulo `2 ^ 64`, and
the out-parameter holds the new counter.  That count is the caller's local count
when aggregation did not run and the value read back from the collective when it
did.  The local learner has no part in it: with any other local learner the counter
and the out-parameter are the same. -/
theorem Update_counter {α W : Type} (E : ElementOps α)
    (IsEmpty : MinibatchInfo α → Bool) (self : DataParallelDistributedLearner α W)
    (gv : GradientValues α) (info : MinibatchInfo α) :
    (self.Update E IsEmpty gv info).self.m_totalNumberOfSamplesSeen
        = (self.m_totalNumberOfSamplesSeen
            + (self.Update E IsEmpty gv info).learnerInfo.numberOfSamples) % SIZE_T_MOD
    ∧ (self.Update E IsEmpty gv info).totalNumberOfSampleSeen
        = (self.Update E IsEmpty gv info).self.m_totalNumberOfSamplesSeen
    ∧ (self.m_totalNumberOfSamplesSeen < self.m_distributeAfterSamples →
        (self.Update E IsEmpty gv info).learnerInfo.numberOfSamples = info.numberOfSamples)
    ∧ (self.m_distributeAfterSamples ≤ self.m_totalNumberOfSamplesSeen →
        (self.Update E IsEmpty gv info).learnerInfo.numberOfSamples
          = readBackNumberOfSamples E
              (self.m_communicator.AggregateInPlace (contribution E IsEmpty gv info)
                self.m_communicator.Workers)
              (NDArrayView.filled (E.ofSizeT info.numberOfSamples) [1]))
    ∧ (∀ other : Learner α,
        (DataParallelDistributedLearner.Update E IsEmpty
            ⟨self.m_communicator, other, self.m_distributeAfterSamples,
              self.m_totalNumberOfSamplesSeen⟩ gv info).self.m_totalNumberOfSamplesSeen
          = (self.Update E IsEmpty gv info).self.m_totalNumberOfSamplesSeen
        ∧ (DataParallelDistributedLearner.Update E IsEmpty
            ⟨self.m_communicator, other, self.m_distributeAfterSamples,
              self.m_totalNumberOfSamplesSeen⟩ gv info).totalNumberOfSampleSeen
          = (self.Update E IsEmpty gv info).totalNumberOfSampleSeen)
    ∧ (self.Update E IsEmpty gv info).self.m_distributeAfterSamples
        = self.m_distributeAfterSamples := by
  refine ⟨rfl, rfl, ?_, ?_, ?_, rfl⟩
  · intro h
    simp only [DataParallelDistributedLearner.Update, aggregationStep_below E IsEmpty self gv info h]
  · intro h
    simp only [DataParallelDistributedLearner.Update]
    exact aggregationStep_numberOfSamples E IsEmpty self gv info h
  · intro other
    constructor <;> rfl

/-- Witness of C6: threshold 100, 40 samples seen, a local minibatch of 5 samples:
the local count stands and the counter becomes 45. -/
theorem Update_counter_witness :
    (40 : Nat) < 100
    ∧ (DataParallelDistributedLearner.Update ieeeDouble isEmptyByCount
        ⟨summingCommunicator ieeeDouble [0] [] [], idleLearner, 100, 40⟩
        (simpleBatch 1 5).1 (simpleBatch 1 5).2).learnerInfo.numberOfSamples
        = (simpleBatch 1 5).2.numberOfSamples
    ∧ (DataParallelDistributedLearner.Update ieeeDouble isEmptyByCount
        ⟨summingCommunicator ieeeDouble [0] [] [], idleLearner, 100, 40⟩
        (simpleBatch 1 5).1 (simpleBatch 1 5).2).totalNumberOfSampleSeen = 45 :=
  ⟨by decide,
   (Update_counter ieeeDouble isEmptyByCount
      ⟨summingCommunicator ieeeDouble [0] [] [], idleLearner, 100, 40⟩
      (simpleBatch 1 5).1 (simpleBatch 1 5).2).2.2.1 (by decide),
   by decide⟩

/-- C9 (layout of the aggregation list): in an aggregating call with `n` gradient
entries the communicator is asked for `Workers()` and then `AggregateInPlace` is
called once, over that full worker set, on a list of `n + 3` tensors: the `n`
gradient tensors in the order of `gradientValues` (for the same parameters; the
caller's own tensors when `info` is not empty), then `info.evalCriterionValue`, then
`info.trainingLossValue`, then a fresh tensor of shape `{1}` whose one element is
`info.numberOfSamples` converted to double.  `info.numberOfSamples` is then read
from the last tensor of that list as the collective left it. -/
theorem Update_aggregation_list {α W : Type} (E : ElementOps α)
    (IsEmpty : MinibatchInfo α → Bool) (self : DataParallelDistributedLearner α W)
    (gv : GradientValues α) (info : MinibatchInfo α)
    (h : self.m_distributeAfterSamples ≤ self.m_totalNumberOfSamplesSeen) :
    (self.Update E IsEmpty gv info).communicatorCalls
        = [.Workers,
           .AggregateInPlace
             ((substituteIfEmpty E IsEmpty gv info).1.map (fun g => g.2)
               ++ [(substituteIfEmpty E IsEmpty gv info).2.evalCriterionValue,
                   (substituteIfEmpty E IsEmpty gv info).2.trainingLossValue,
                   ⟨[1], [E.ofSizeT info.numberOfSamples]⟩])
             self.m_communicator.Workers]
    ∧ ((substituteIfEmpty E IsEmpty gv info).1.map (fun g => g.2)
          ++ [(substituteIfEmpty E IsEmpty gv info).2.evalCriterionValue,
              (substituteIfEmpty E IsEmpty gv info).2.trainingLossValue,
              (⟨[1], [E.ofSizeT info.numberOfSamples]⟩ : NDArrayView α)]).length
        = gv.length + 3
    ∧ (substituteIfEmpty E IsEmpty gv info).1.map (fun g => g.1) = gv.map (fun g => g.1)
    ∧ (IsEmpty info = false → substituteIfEmpty E IsEmpty gv info = (gv, info))
    ∧ (self.Update E IsEmpty gv info).learnerInfo.numberOfSamples
        = E.toSizeT
            (((self.m_communicator.AggregateInPlace
                ((substituteIfEmpty E IsEmpty gv info).1.map (fun g => g.2)
                  ++ [(substituteIfEmpty E IsEmpty gv info).2.evalCriterionValue,
                      (substituteIfEmpty E IsEmpty gv info).2.trainingLossValue,
                      ⟨[1], [E.ofSizeT info.numberOfSamples]⟩])
                self.m_communicator.Workers).getLastD
                  ⟨[1], [E.ofSizeT info.numberOfSamples]⟩).data.headD E.zero) % SIZE_T_MOD := by
  have hfresh : NDArrayView.filled (E.ofSizeT info.numberOfSamples) [1]
      = (⟨[1], [E.ofSizeT info.numberOfSamples]⟩ : NDArrayView α) := by
    simp [NDArrayView.filled]
  have hcontrib : contribution E IsEmpty gv info
      = (substituteIfEmpty E IsEmpty gv info).1.map (fun g => g.2)
          ++ [(substituteIfEmpty E IsEmpty gv info).2.evalCriterionValue,
              (substituteIfEmpty E IsEmpty gv info).2.trainingLossValue,
              ⟨[1], [E.ofSizeT info.numberOfSamples]⟩] := by
    simp only [contribution, valuesToAggregate, substituteIfEmpty_numberOfSamples, hfresh]
  refine ⟨?_, ?_, substituteIfEmpty_parameters E IsEmpty gv info, ?_, ?_⟩
  · simp only [DataParallelDistributedLearner.Update]
    rw [aggregationStep_calls E IsEmpty self gv info h, hcontrib]
  · simp [substituteIfEmpty_length]
  · intro hne
    simp [substituteIfEmpty, hne]
  · simp only [DataParallelDistributedLearner.Update]
    rw [aggregationStep_numberOfSamples E IsEmpty self gv info h, hcontrib, hfresh]
    rfl

/-- Witness of C9: with threshold 0 a minibatch over one parameter gives a list of
four tensors, the last one holding the sample count. -/
theorem Update_aggregation_list_witness :
    (0 : Nat) ≤ 0
    ∧ (DataParallelDistributedLearner.Update ieeeDouble isEmptyByCount
        ⟨summingCommunicator ieeeDouble [0] [] [], idleLearner, 0, 0⟩
        (simpleBatch 7 5).1 (simpleBatch 7 5).2).communicatorCalls
        = [.Workers, .AggregateInPlace [scalar 7, scalar 0, scalar 0, scalar 5] [0]] :=
  ⟨Nat.le_refl 0,
   (Update_aggregation_list ieeeDouble isEmptyByCount
      ⟨summingCommunicator ieeeDouble [0] [] [], idleLearner, 0, 0⟩
      (simpleBatch 7 5).1 (simpleBatch 7 5).2 (Nat.le_refl 0)).1⟩

/-! ## Construction and the build-time gate -/

/-- C5 (fail-fast configuration): constructing the learner, directly or through
`CreateDataParallelDistributedLearner`, raises a `LogicError` if and only if
`useAsyncBufferedParameterUpdate` is true, whatever the communicator, the learners
and the threshold; with the flag false it yields the learner of the base
constructor, whose counter is 0 and whose threshold is the one given. -/
theorem construction_fails_iff_async {α W : Type} (composite : List (Learner α) → Learner α)
    (communicator : DistributedCommunicator α W) (learners : List (Learner α))
    (distributedAfterSamples : Nat) (useAsyncBufferedParameterUpdate : Bool) :
    ((∃ message, DataParallelDistributedLearner.new composite communicator learners
          distributedAfterSamples useAsyncBufferedParameterUpdate
            = .error (.LogicError message))
        ↔ useAsyncBufferedParameterUpdate = true)
    ∧ ((∃ message, CreateDataParallelDistributedLearner composite communicator learners
          distributedAfterSamples useAsyncBufferedParameterUpdate
            = .error (.LogicError message))
        ↔ useAsyncBufferedParameterUpdate = true)
    ∧ (useAsyncBufferedParameterUpdate = false →
        DataParallelDistributedLearner.new composite communicator learners
            distributedAfterSamples useAsyncBufferedParameterUpdate
          = .ok (DistributedLearnerBase composite communicator learners distributedAfterSamples)
        ∧ CreateDataParallelDistributedLearner composite communicator learners
            distributedAfterSamples useAsyncBufferedParameterUpdate
          = .ok (DistributedLearnerBase composite communicator learners distributedAfterSamples))
    ∧ (DistributedLearnerBase composite communicator learners
          distributedAfterSamples).m_totalNumberOfSamplesSeen = 0
    ∧ (DistributedLearnerBase composite communicator learners
          distributedAfterSamples).m_distributeAfterSamples = distributedAfterSamples := by
  cases useAsyncBufferedParameterUpdate <;>
    simp [CreateDataParallelDistributedLearner, DataParallelDistributedLearner.new,
      DistributedLearnerBase]

/-- Witness of C5: with the flag false the factory returns a learner. -/
theorem construction_fails_iff_async_witness :
    CreateDataParallelDistributedLearner (fun _ => idleLearner)
        (summingCommunicator ieeeDouble [0] [] []) [idleLearner] 0 false
      = .ok (DistributedLearnerBase (fun _ => idleLearner)
          (summingCommunicator ieeeDouble [0] [] []) [idleLearner] 0) :=
  ((construction_fails_iff_async (fun _ => idleLearner)
      (summingCommunicator ieeeDouble [0] [] []) [idleLearner] 0 false).2.2.1 rfl).2

/-- C8 (build-time gate): without `CNTK_PARALLEL_TRAINING_SUPPORT`,
`QuantizedMPICommunicator`, `CreateQuantizedDataParallelDistributedLearner` and both
overloads of `CreateBlockMomentumDistributedLearner` raise a `LogicError` whose
message contains "not supported for this build", for every argument; none of them
returns a value. -/
theorem unsupported_build_raises_LogicError {Q C L R D : Type}
    (makeQ : Bool → Bool → Nat → Q) (makeD : Q → List L → Nat → Bool → D)
    (makeB : C → List L → Nat → Nat → Bool → Bool → R → D)
    (makeT : C → List L → Nat → Nat → Bool → Bool → R → R → D)
    (quantized : Q) (communicator : C) (learners : List L)
    (b1 b2 : Bool) (n1 n2 : Nat) (r1 r2 : R) :
    (∃ message, QuantizedMPICommunicator false makeQ b1 b2 n1 = .error (.LogicError message)
        ∧ notSupportedText <:+: message.toList)
    ∧ (∃ message, CreateQuantizedDataParallelDistributedLearner false makeD quantized learners
          n1 b1 = .error (.LogicError message)
        ∧ notSupportedText <:+: message.toList)
    ∧ (∃ message, CreateBlockMomentumDistributedLearner false makeB communicator learners
          n1 n2 b1 b2 r1 = .error (.LogicError message)
        ∧ notSupportedText <:+: message.toList)
    ∧ (∃ message, CreateBlockMomentumDistributedLearnerTimeConstant false makeT communicator
          learners n1 n2 r1 b1 b2 r2 = .error (.LogicError message)
        ∧ notSupportedText <:+: message.toList)
    ∧ (∀ q, QuantizedMPICommunicator false makeQ b1 b2 n1 ≠ .ok q)
    ∧ (∀ d, CreateQuantizedDataParallelDistributedLearner false makeD quantized learners
          n1 b1 ≠ .ok d)
    ∧ (∀ d, CreateBlockMomentumDistributedLearner false makeB communicator learners
          n1 n2 b1 b2 r1 ≠ .ok d)
    ∧ (∀ d, CreateBlockMomentumDistributedLearnerTimeConstant false makeT communicator
          learners n1 n2 r1 b1 b2 r2 ≠ .ok d) := by
  refine ⟨⟨_, rfl, by decide⟩, ⟨_, rfl, by decide⟩, ⟨_, rfl, by decide⟩, ⟨_, rfl, by decide⟩,
    ?_, ?_, ?_, ?_⟩ <;> intro x hx <;> cases hx

/-! ## Lemmas on the collective -/

theorem contribution_endsWithCount {α : Type} (E : ElementOps α)
    (IsEmpty : MinibatchInfo α → Bool) (gv : GradientValues α) (info : MinibatchInfo α) :
    EndsWithCount (gv.length + 2) (E.ofSizeT info.numberOfSamples)
      (contribution E IsEmpty gv info) := by
  refine ⟨(substituteIfEmpty E IsEmpty gv info).1.map (fun g => g.2)
      ++ [(substituteIfEmpty E IsEmpty gv info).2.evalCriterionValue,
          (substituteIfEmpty E IsEmpty gv info).2.trainingLossValue], ?_, ?_⟩
  · simp [substituteIfEmpty_length]
  · simp [contribution, valuesToAggregate, substituteIfEmpty_numberOfSamples, NDArrayView.filled]

theorem addLists_endsWithCount {α : Type} (E : ElementOps α) (n : Nat) (a b : α)
    (x y : List (NDArrayView α)) (hx : EndsWithCount n a x) (hy : EndsWithCount n b y) :
    EndsWithCount n (E.add a b) (addLists E x y) := by
  obtain ⟨fx, hfx, rfl⟩ := hx
  obtain ⟨fy, hfy, rfl⟩ := hy
  refine ⟨addLists E fx fy, ?_, ?_⟩
  · simp [addLists, hfx, hfy]
  · unfold addLists
    rw [List.zipWith_append _ _ _ _ _ (by omega)]
    simp [addInPlace]

theorem foldl_addLists_endsWithCount {α : Type} (E : ElementOps α)
    (IsEmpty : MinibatchInfo α → Bool) (n : Nat) (turns : List (WorkerTurn α))
    (hlen : ∀ t ∈ turns, t.gradientValues.length = n) :
    ∀ (acc : List (NDArrayView α)) (a : α), EndsWithCount (n + 2) a acc →
      EndsWithCount (n + 2)
        ((turns.map (fun t => E.ofSizeT t.info.numberOfSamples)).foldl E.add a)
        ((turns.map (WorkerTurn.contribution E IsEmpty)).foldl (addLists E) acc) := by
  induction turns with
  | nil => intro acc a h; simpa using h
  | cons t rest ih =>
    intro acc a h
    simp only [List.map_cons, List.foldl_cons]
    apply ih (fun u hu => hlen u (List.mem_cons_of_mem _ hu))
    apply addLists_endsWithCount E (n + 2) a _ acc _ h
    have := contribution_endsWithCount E IsEmpty t.gradientValues t.info
    rw [hlen t (List.mem_cons_self _ _)] at this
    exact this

theorem allReduceSum_endsWithCount {α : Type} (E : ElementOps α)
    (IsEmpty : MinibatchInfo α → Bool) (n : Nat) (t : WorkerTurn α) (rest : List (WorkerTurn α))
    (hlen : ∀ u ∈ t :: rest, u.gradientValues.length = n) :
    EndsWithCount (n + 2)
      ((rest.map (fun u => E.ofSizeT u.info.numberOfSamples)).foldl E.add
        (E.ofSizeT t.info.numberOfSamples))
      (allReduceSum E ((t :: rest).map (WorkerTurn.contribution E IsEmpty))) := by
  simp only [List.map_cons, allReduceSum]
  apply foldl_addLists_endsWithCount E IsEmpty n rest
    (fun u hu => hlen u (List.mem_cons_of_mem _ hu))
  have := contribution_endsWithCount E IsEmpty t.gradientValues t.info
  rw [hlen t (List.mem_cons_self _ _)] at this
  exact this

theorem readBack_endsWithCount {α : Type} (E : ElementOps α) (n : Nat) (a : α)
    (c : List (NDArrayView α)) (fresh : NDArrayView α) (h : EndsWithCount n a c) :
    readBackNumberOfSamples E c fresh = E.toSizeT a % SIZE_T_MOD := by
  obtain ⟨front, _, rfl⟩ := h
  simp [readBackNumberOfSamples, List.getLastD_concat]

/-- With the conversion and the addition exact up to `2 ^ 53`, the sum of the converted
counts is the converted sum. -/
theorem foldl_add_ofSizeT {α : Type} (E : ElementOps α)
    (hadd : ∀ a b : Nat, a + b ≤ 2 ^ 53 → E.add (E.ofSizeT a) (E.ofSizeT b) = E.ofSizeT (a + b))
    (counts : List Nat) :
    ∀ a : Nat, a + counts.sum ≤ 2 ^ 53 →
      (counts.map E.ofSizeT).foldl E.add (E.ofSizeT a) = E.ofSizeT (a + counts.sum) := by
  induction counts with
  | nil => intro a _; simp
  | cons c cs ih =>
    intro a h
    simp only [List.sum_cons] at h
    simp only [List.map_cons, List.foldl_cons, List.sum_cons]
    rw [hadd a c (by omega), ih (a + c) (by omega), Nat.add_assoc]

/-! ## Lemmas on workers in lock step -/

theorem runWorkers_length {α : Type} (E : ElementOps α) (IsEmpty : MinibatchInfo α → Bool)
    (workers : List Nat) (todo : List (WorkerTurn α)) :
    ∀ done, (runWorkers E IsEmpty workers done todo).length = todo.length := by
  induction todo with
  | nil => intro done; rfl
  | cons t rest ih => intro done; simp [runWorkers, ih]

/-- Each result of `runWorkers` is the `Update` of one worker, whose communicator sums
its list with the lists of all the others. -/
theorem runWorkers_mem {α : Type} (E : ElementOps α) (IsEmpty : MinibatchInfo α → Bool)
    (workers : List Nat) (todo : List (WorkerTurn α)) :
    ∀ done res, res ∈ runWorkers E IsEmpty workers done todo →
      ∃ t before after, t ∈ todo
        ∧ before ++ t.contribution E IsEmpty :: after
            = done ++ todo.map (WorkerTurn.contribution E IsEmpty)
        ∧ res = t.update E IsEmpty workers before after := by
  induction todo with
  | nil => intro done res h; simp [runWorkers] at h
  | cons t rest ih =>
    intro done res h
    simp only [runWorkers, List.mem_cons] at h
    rcases h with h | h
    · exact ⟨t, done, rest.map (WorkerTurn.contribution E IsEmpty),
        List.mem_cons_self _ _, by simp, h⟩
    · obtain ⟨u, before, after, hu, heq, hres⟩ := ih _ _ h
      exact ⟨u, before, after, List.mem_cons_of_mem _ hu, by simp [heq], hres⟩

/-- What an aggregating worker reads back: the count held by the sum of all lists. -/
theorem update_numberOfSamples {α : Type} (E : ElementOps α) (IsEmpty : MinibatchInfo α → Bool)
    (workers : List Nat) (before after : List (List (NDArrayView α))) (t : WorkerTurn α)
    (h : t.m_distributeAfterSamples ≤ t.m_totalNumberOfSamplesSeen) :
    (t.update E IsEmpty workers before after).learnerInfo.numberOfSamples
      = readBackNumberOfSamples E
          (allReduceSum E (before ++ t.contribution E IsEmpty :: after))
          (NDArrayView.filled (E.ofSizeT t.info.numberOfSamples) [1]) := by
  simp only [WorkerTurn.update, DataParallelDistributedLearner.Update]
  rw [aggregationStep_numberOfSamples E IsEmpty _ _ _ h]
  rfl

theorem lockStepRound_aggregating {α : Type} (E : ElementOps α)
    (IsEmpty : MinibatchInfo α → Bool) (turns : List (WorkerTurn α))
    (h : ∀ t ∈ turns, t.m_distributeAfterSamples ≤ t.m_totalNumberOfSamplesSeen) :
    lockStepRound E IsEmpty turns
      = some (runWorkers E IsEmpty (List.range turns.length) [] turns) := by
  unfold lockStepRound
  have : turns.all (fun t => t.aggregates) = true := by
    simp only [List.all_eq_true, WorkerTurn.aggregates, decide_eq_true_eq]
    exact fun t ht => h t ht
  simp [this]

/-- In a round in which every worker aggregates, with the conversions and the additions
exact, every worker reads back the exact sum of the local counts. -/
theorem aggregating_round_counts {α : Type} (E : ElementOps α)
    (IsEmpty : MinibatchInfo α → Bool) (turns : List (WorkerTurn α))
    (hconv : ∀ n : Nat, n ≤ 2 ^ 53 → E.toSizeT (E.ofSizeT n) = n)
    (hadd : ∀ a b : Nat, a + b ≤ 2 ^ 53 → E.add (E.ofSizeT a) (E.ofSizeT b) = E.ofSizeT (a + b))
    (hagg : ∀ t ∈ turns, t.m_distributeAfterSamples ≤ t.m_totalNumberOfSamplesSeen)
    (hlen : ∀ t ∈ turns, ∀ u ∈ turns, t.gradientValues.length = u.gradientValues.length)
    (hsum : (turns.map (fun t => t.info.numberOfSamples)).sum ≤ 2 ^ 53) :
    ∀ res ∈ runWorkers E IsEmpty (List.range turns.length) [] turns,
      res.learnerInfo.numberOfSamples = (turns.map (fun t => t.info.numberOfSamples)).sum := by
  intro res hres
  obtain ⟨t, before, after, ht, heq, rfl⟩ := runWorkers_mem E IsEmpty _ turns [] res hres
  rw [update_numberOfSamples E IsEmpty _ before after t (hagg t ht), heq, List.nil_append]
  cases turns with
  | nil => simp at ht
  | cons t0 rest =>
    have hshape := allReduceSum_endsWithCount E IsEmpty t0.gradientValues.length t0 rest
      (fun u hu => hlen u hu t0 (List.mem_cons_self _ _))
    rw [readBack_endsWithCount E _ _ _ _ hshape]
    simp only [List.map_cons, List.sum_cons] at hsum ⊢
    have hmap : rest.map (fun u => E.ofSizeT u.info.numberOfSamples)
        = (rest.map (fun u => u.info.numberOfSamples)).map E.ofSizeT := by
      simp [List.map_map, Function.comp_def]
    rw [hmap, foldl_add_ofSizeT E hadd _ _ hsum, hconv _ hsum]
    apply Nat.mod_eq_of_lt
    have : (2 : Nat) ^ 53 < SIZE_T_MOD := by decide
    omega

/-! ## The concrete arithmetic is exact up to `2 ^ 53` -/

theorem roundToDouble_exact (n : Nat) (h : n ≤ 2 ^ 53) : roundToDouble n = n := by
  rcases Nat.lt_or_ge n (2 ^ 53) with hlt | hge
  · have he : ulpExponent 1024 n = 0 := by
      show (if n < 2 ^ 53 then 0 else ulpExponent 1023 (n / 2) + 1) = 0
      exact if_pos hlt
    simp only [roundToDouble, he, Nat.pow_zero, Nat.div_one, Nat.mod_one, Nat.mul_zero,
      Nat.mul_one]
    rw [if_pos Nat.zero_lt_one]
  · have : n = 2 ^ 53 := by omega
    subst this
    decide

theorem ieeeDouble_conv (n : Nat) (h : n ≤ 2 ^ 53) :
    ieeeDouble.toSizeT (ieeeDouble.ofSizeT n) = n :=
  roundToDouble_exact n h

theorem ieeeDouble_add (a b : Nat) (h : a + b ≤ 2 ^ 53) :
    ieeeDouble.add (ieeeDouble.ofSizeT a) (ieeeDouble.ofSizeT b) = ieeeDouble.ofSizeT (a + b) := by
  show roundToDouble (roundToDouble a + roundToDouble b) = roundToDouble (a + b)
  rw [roundToDouble_exact a (by omega), roundToDouble_exact b (by omega)]

/-! ## Theorems on workers in lock step -/

/-- C2 as amended (sample-count conservation): in a round in which every worker
aggregates, all with the same number of gradient entries, if the conversions between
`size_t` and double and the additions of the collective are exact up to `2 ^ 53` (as
they are for binary64) and the sum of the local counts is at most `2 ^ 53`, then the
round completes and every worker's `info.numberOfSamples` after the aggregation step
is the exact sum of the local counts. -/
theorem aggregated_count_is_sum_below_2_pow_53 {α : Type} (E : ElementOps α)
    (IsEmpty : MinibatchInfo α → Bool) (turns : List (WorkerTurn α))
    (hconv : ∀ n : Nat, n ≤ 2 ^ 53 → E.toSizeT (E.ofSizeT n) = n)
    (hadd : ∀ a b : Nat, a + b ≤ 2 ^ 53 → E.add (E.ofSizeT a) (E.ofSizeT b) = E.ofSizeT (a + b))
    (hagg : ∀ t ∈ turns, t.m_distributeAfterSamples ≤ t.m_totalNumberOfSamplesSeen)
    (hlen : ∀ t ∈ turns, ∀ u ∈ turns, t.gradientValues.length = u.gradientValues.length)
    (hsum : (turns.map (fun t => t.info.numberOfSamples)).sum ≤ 2 ^ 53) :
    ∃ results, lockStepRound E IsEmpty turns = some results
      ∧ results.length = turns.length
      ∧ ∀ res ∈ results,
          res.learnerInfo.numberOfSamples
            = (turns.map (fun t => t.info.numberOfSamples)).sum :=
  ⟨_, lockStepRound_aggregating E IsEmpty turns hagg, runWorkers_length E IsEmpty _ turns [],
    aggregating_round_counts E IsEmpty turns hconv hadd hagg hlen hsum⟩

/-- In a round in which every worker aggregates and the counts are carried exactly, with
local learners that return true and leave the count alone: every worker is told to
go on if some worker brought samples, and to stop if none did. -/
theorem end_of_stream_exact_counts {α : Type} (E : ElementOps α)
    (IsEmpty : MinibatchInfo α → Bool) (turns : List (WorkerTurn α))
    (hconv : ∀ n : Nat, n ≤ 2 ^ 53 → E.toSizeT (E.ofSizeT n) = n)
    (hadd : ∀ a b : Nat, a + b ≤ 2 ^ 53 → E.add (E.ofSizeT a) (E.ofSizeT b) = E.ofSizeT (a + b))
    (hempty : ∀ i : MinibatchInfo α, IsEmpty i = true ↔ i.numberOfSamples = 0)
    (hagg : ∀ t ∈ turns, t.m_distributeAfterSamples ≤ t.m_totalNumberOfSamplesSeen)
    (hlen : ∀ t ∈ turns, ∀ u ∈ turns, t.gradientValues.length = u.gradientValues.length)
    (hsum : (turns.map (fun t => t.info.numberOfSamples)).sum ≤ 2 ^ 53)
    (hlearner : ∀ t ∈ turns, ∀ gv i,
      (t.m_learner.Update gv i 0).1 = true
      ∧ (t.m_learner.Update gv i 0).2.2.numberOfSamples = i.numberOfSamples) :
    ∃ results, lockStepRound E IsEmpty turns = some results
      ∧ results.length = turns.length
      ∧ ((∃ t ∈ turns, t.info.numberOfSamples ≠ 0) → ∀ res ∈ results, res.returned = true)
      ∧ ((∀ t ∈ turns, t.info.numberOfSamples = 0) → ∀ res ∈ results, res.returned = false) := by
  refine ⟨_, lockStepRound_aggregating E IsEmpty turns hagg,
    runWorkers_length E IsEmpty _ turns [], ?_, ?_⟩
  · rintro ⟨t1, ht1, hne⟩ res hres
    have hcount := aggregating_round_counts E IsEmpty turns hconv hadd hagg hlen hsum res hres
    obtain ⟨t, before, after, ht, -, rfl⟩ := runWorkers_mem E IsEmpty _ turns [] res hres
    have hl := hlearner t ht (t.update E IsEmpty (List.range turns.length) before after).learnerGradientValues
      (t.update E IsEmpty (List.range turns.length) before after).learnerInfo
    have hpos : (turns.map (fun t => t.info.numberOfSamples)).sum ≠ 0 := by
      intro h0
      rw [List.sum_eq_zero_iff] at h0
      exact hne (h0 _ (List.mem_map_of_mem _ ht1))
    have h1 : (t.update E IsEmpty (List.range turns.length) before after).learnerResult = true :=
      hl.1
    have h2 : (t.update E IsEmpty (List.range turns.length) before after).info.numberOfSamples
        = (turns.map (fun t => t.info.numberOfSamples)).sum := hl.2.trans hcount
    have hne' : IsEmpty (t.update E IsEmpty (List.range turns.length) before after).info = false := by
      rw [Bool.eq_false_iff, Ne, hempty, h2]
      exact hpos
    have hret : (t.update E IsEmpty (List.range turns.length) before after).returned
        = ((t.update E IsEmpty (List.range turns.length) before after).learnerResult
            && !IsEmpty (t.update E IsEmpty (List.range turns.length) before after).info) := rfl
    rw [hret, h1, hne']
    rfl
  · intro hall res hres
    have hcount := aggregating_round_counts E IsEmpty turns hconv hadd hagg hlen hsum res hres
    obtain ⟨t, before, after, ht, -, rfl⟩ := runWorkers_mem E IsEmpty _ turns [] res hres
    have hl := hlearner t ht (t.update E IsEmpty (List.range turns.length) before after).learnerGradientValues
      (t.update E IsEmpty (List.range turns.length) before after).learnerInfo
    have hzero : (turns.map (fun t => t.info.numberOfSamples)).sum = 0 := by
      rw [List.sum_eq_zero_iff]
      intro x hx
      obtain ⟨u, hu, rfl⟩ := List.mem_map.1 hx
      exact hall u hu
    have h2 : (t.update E IsEmpty (List.range turns.length) before after).info.numberOfSamples
        = (turns.map (fun t => t.info.numberOfSamples)).sum := hl.2.trans hcount
    have he : IsEmpty (t.update E IsEmpty (List.range turns.length) before after).info = true := by
      rw [hempty, h2]
      exact hzero
    have hret : (t.update E IsEmpty (List.range turns.length) before after).returned
        = ((t.update E IsEmpty (List.range turns.length) before after).learnerResult
            && !IsEmpty (t.update E IsEmpty (List.range turns.length) before after).info) := rfl
    rw [hret, he]
    simp

/-! ## Agreement of the counters -/

theorem contribution_ne_nil {α : Type} (E : ElementOps α) (IsEmpty : MinibatchInfo α → Bool)
    (gv : GradientValues α) (info : MinibatchInfo α) : contribution E IsEmpty gv info ≠ [] := by
  obtain ⟨front, _, h⟩ := contribution_endsWithCount E IsEmpty gv info
  rw [h]
  simp

theorem addLists_ne_nil {α : Type} (E : ElementOps α) (x y : List (NDArrayView α))
    (hx : x ≠ []) (hy : y ≠ []) : addLists E x y ≠ [] := by
  cases x with
  | nil => exact absurd rfl hx
  | cons a x =>
    cases y with
    | nil => exact absurd rfl hy
    | cons b y => simp [addLists]

theorem foldl_addLists_ne_nil {α : Type} (E : ElementOps α) (cs : List (List (NDArrayView α)))
    (hcs : ∀ c ∈ cs, c ≠ []) : ∀ acc, acc ≠ [] → cs.foldl (addLists E) acc ≠ [] := by
  induction cs with
  | nil => intro acc h; simpa using h
  | cons c cs ih =>
    intro acc h
    simp only [List.foldl_cons]
    exact ih (fun d hd => hcs d (List.mem_cons_of_mem _ hd)) _
      (addLists_ne_nil E acc c h (hcs c (List.mem_cons_self _ _)))

theorem allReduceSum_ne_nil {α : Type} (E : ElementOps α) (cs : List (List (NDArrayView α)))
    (hne : cs ≠ []) (hcs : ∀ c ∈ cs, c ≠ []) : allReduceSum E cs ≠ [] := by
  cases cs with
  | nil => exact absurd rfl hne
  | cons c cs =>
    exact foldl_addLists_ne_nil E cs (fun d hd => hcs d (List.mem_cons_of_mem _ hd)) c
      (hcs c (List.mem_cons_self _ _))

theorem readBack_fresh_irrelevant {α : Type} (E : ElementOps α) (l : List (NDArrayView α))
    (hl : l ≠ []) (f g : NDArrayView α) :
    readBackNumberOfSamples E l f = readBackNumberOfSamples E l g := by
  unfold readBackNumberOfSamples
  have : l.getLastD f = l.getLastD g := by
    rw [List.getLastD_eq_getLast?, List.getLastD_eq_getLast?]
    cases hlast : l.getLast? with
    | none => exact absurd (List.getLast?_eq_none_iff.1 hlast) hl
    | some v => rfl
  rw [this]

/-- In a round in which every worker aggregates, every worker adds the same count,
the one held by the sum of all lists, to its counter. -/
theorem aggregating_round_counter {α : Type} (E : ElementOps α)
    (IsEmpty : MinibatchInfo α → Bool) (turns : List (WorkerTurn α))
    (hagg : ∀ t ∈ turns, t.m_distributeAfterSamples ≤ t.m_totalNumberOfSamplesSeen) :
    ∀ res ∈ runWorkers E IsEmpty (List.range turns.length) [] turns,
      ∃ t ∈ turns,
        res.self.m_totalNumberOfSamplesSeen
          = (t.m_totalNumberOfSamplesSeen
              + readBackNumberOfSamples E
                  (allReduceSum E (turns.map (WorkerTurn.contribution E IsEmpty))) ⟨[], []⟩)
            % SIZE_T_MOD
        ∧ res.totalNumberOfSampleSeen = res.self.m_totalNumberOfSamplesSeen
        ∧ res.self.m_distributeAfterSamples = t.m_distributeAfterSamples := by
  intro res hres
  obtain ⟨t, before, after, ht, heq, rfl⟩ := runWorkers_mem E IsEmpty _ turns [] res hres
  refine ⟨t, ht, ?_, rfl, rfl⟩
  have hcount := update_numberOfSamples E IsEmpty (List.range turns.length) before after t
    (hagg t ht)
  rw [heq, List.nil_append] at hcount
  have hne : allReduceSum E (turns.map (WorkerTurn.contribution E IsEmpty)) ≠ [] := by
    apply allReduceSum_ne_nil
    · intro h
      rw [List.map_eq_nil_iff] at h
      rw [h] at ht
      simp at ht
    · intro c hc
      obtain ⟨u, _, rfl⟩ := List.mem_map.1 hc
      exact contribution_ne_nil E IsEmpty _ _
  rw [readBack_fresh_irrelevant E _ hne _ ⟨[], []⟩] at hcount
  have hself : (t.update E IsEmpty (List.range turns.length) before after).self.m_totalNumberOfSamplesSeen
      = (t.m_totalNumberOfSamplesSeen
          + (t.update E IsEmpty (List.range turns.length) before after).learnerInfo.numberOfSamples)
        % SIZE_T_MOD := rfl
  rw [hself, hcount]

theorem mem_zipWith_advance {α : Type} (ws : List (Worker α)) :
    ∀ (results : List (UpdateResult α (List Nat))) (w : Worker α),
      w ∈ List.zipWith Worker.advance ws results →
        ∃ v ∈ ws, ∃ res ∈ results, w = v.advance res := by
  induction ws with
  | nil => intro results w h; simp at h
  | cons v ws ih =>
    intro results w h
    cases results with
    | nil => simp at h
    | cons res results =>
      simp only [List.zipWith_cons_cons, List.mem_cons] at h
      rcases h with h | h
      · exact ⟨v, List.mem_cons_self _ _, res, List.mem_cons_self _ _, h⟩
      · obtain ⟨v', hv', res', hres', hw⟩ := ih results w h
        exact ⟨v', List.mem_cons_of_mem _ hv', res', List.mem_cons_of_mem _ hres', hw⟩

/-- With a threshold of 0 on every worker and equal counters at the start, the
workers complete any number of rounds and end with equal counters. -/
theorem lockStepRun_agrees {α : Type} (E : ElementOps α) (IsEmpty : MinibatchInfo α → Bool) :
    ∀ (rounds r : Nat) (ws : List (Worker α)) (c : Nat),
      (∀ w ∈ ws, w.m_distributeAfterSamples = 0 ∧ w.m_totalNumberOfSamplesSeen = c) →
      ∃ ws' c', lockStepRun E IsEmpty rounds r ws = some ws'
        ∧ ws'.length = ws.length
        ∧ ∀ w ∈ ws', w.m_distributeAfterSamples = 0 ∧ w.m_totalNumberOfSamplesSeen = c' := by
  intro rounds
  induction rounds with
  | zero => intro r ws c h; exact ⟨ws, c, rfl, rfl, h⟩
  | succ rounds ih =>
    intro r ws c h
    have hagg : ∀ t ∈ ws.map (fun w => w.turn r),
        t.m_distributeAfterSamples ≤ t.m_totalNumberOfSamplesSeen := by
      intro t ht
      obtain ⟨w, hw, rfl⟩ := List.mem_map.1 ht
      show w.m_distributeAfterSamples ≤ w.m_totalNumberOfSamplesSeen
      rw [(h w hw).1]
      exact Nat.zero_le _
    have hround := lockStepRound_aggregating E IsEmpty (ws.map (fun w => w.turn r)) hagg
    have hstep : ∀ w ∈ List.zipWith Worker.advance ws
        (runWorkers E IsEmpty (List.range (ws.map (fun w => w.turn r)).length) []
          (ws.map (fun w => w.turn r))),
        w.m_distributeAfterSamples = 0
        ∧ w.m_totalNumberOfSamplesSeen
          = (c + readBackNumberOfSamples E
                (allReduceSum E ((ws.map (fun w => w.turn r)).map
                  (WorkerTurn.contribution E IsEmpty))) ⟨[], []⟩) % SIZE_T_MOD := by
      intro w hw
      obtain ⟨v, _, res, hres, rfl⟩ := mem_zipWith_advance ws _ w hw
      obtain ⟨t, ht, htotal, _, hT⟩ :=
        aggregating_round_counter E IsEmpty (ws.map (fun w => w.turn r)) hagg res hres
      obtain ⟨u, hu, rfl⟩ := List.mem_map.1 ht
      constructor
      · show res.self.m_distributeAfterSamples = 0
        rw [hT]
        exact (h u hu).1
      · show res.self.m_totalNumberOfSamplesSeen = _
        rw [htotal]
        show (u.m_totalNumberOfSamplesSeen + _) % SIZE_T_MOD = _
        rw [(h u hu).2]
    obtain ⟨ws', c', hrun, hlen, hall⟩ := ih (r + 1) _ _ hstep
    refine ⟨ws', c', ?_, ?_, hall⟩
    · simp only [lockStepRun, hround]
      exact hrun
    · rw [hlen, List.length_zipWith, runWorkers_length, List.length_map, Nat.min_self]

/-- C4 as amended (agreement of the counter across workers): (1) a round in which every
worker aggregates and which the workers enter with equal counters completes and
leaves the counter, and the out-parameter, equal on all workers; (2) workers that
share the threshold 0 and start with equal counters complete any number of rounds
in lock step, whatever their local sample counts, and end with equal counters. -/
theorem counters_agree_when_equal_at_entry {α : Type} (E : ElementOps α)
    (IsEmpty : MinibatchInfo α → Bool) :
    (∀ (turns : List (WorkerTurn α)) (c : Nat),
      (∀ t ∈ turns, t.m_totalNumberOfSamplesSeen = c) →
      (∀ t ∈ turns, t.m_distributeAfterSamples ≤ t.m_totalNumberOfSamplesSeen) →
      ∃ results c', lockStepRound E IsEmpty turns = some results
        ∧ results.length = turns.length
        ∧ ∀ res ∈ results,
            res.self.m_totalNumberOfSamplesSeen = c' ∧ res.totalNumberOfSampleSeen = c')
    ∧ (∀ (rounds r : Nat) (ws : List (Worker α)) (c : Nat),
      (∀ w ∈ ws, w.m_distributeAfterSamples = 0 ∧ w.m_totalNumberOfSamplesSeen = c) →
      ∃ ws' c', lockStepRun E IsEmpty rounds r ws = some ws'
        ∧ ws'.length = ws.length
        ∧ ∀ w ∈ ws', w.m_distributeAfterSamples = 0 ∧ w.m_totalNumberOfSamplesSeen = c') := by
  refine ⟨?_, lockStepRun_agrees E IsEmpty⟩
  intro turns c hc hagg
  refine ⟨_, (c + readBackNumberOfSamples E
      (allReduceSum E (turns.map (WorkerTurn.contribution E IsEmpty))) ⟨[], []⟩) % SIZE_T_MOD,
    lockStepRound_aggregating E IsEmpty turns hagg, runWorkers_length E IsEmpty _ turns [], ?_⟩
  intro res hres
  obtain ⟨t, ht, htotal, hout, _⟩ := aggregating_round_counter E IsEmpty turns hagg res hres
  rw [hout, htotal, hc t ht]
  exact ⟨rfl, rfl⟩

/-! ## The contribution of a worker without data -/

theorem zipWith_add_zero_left {α : Type} (E : ElementOps α) :
    ∀ (zs xs : List α), (∀ z ∈ zs, z = E.zero) → zs.length = xs.length →
      (∀ x ∈ xs, E.add E.zero x = x) → List.zipWith E.add zs xs = xs := by
  intro zs
  induction zs with
  | nil => intro xs _ hl _; cases xs with
    | nil => rfl
    | cons x xs => simp at hl
  | cons z zs ih =>
    intro xs hz hl hx
    cases xs with
    | nil => simp at hl
    | cons x xs =>
      simp only [List.zipWith_cons_cons]
      rw [hz z (List.mem_cons_self _ _), hx x (List.mem_cons_self _ _),
        ih xs (fun y hy => hz y (List.mem_cons_of_mem _ hy)) (by simpa using hl)
          (fun y hy => hx y (List.mem_cons_of_mem _ hy))]

theorem zipWith_add_zero_right {α : Type} (E : ElementOps α) :
    ∀ (zs xs : List α), (∀ z ∈ zs, z = E.zero) → zs.length = xs.length →
      (∀ x ∈ xs, E.add x E.zero = x) → List.zipWith E.add xs zs = xs := by
  intro zs
  induction zs with
  | nil => intro xs _ hl _; cases xs with
    | nil => rfl
    | cons x xs => simp at hl
  | cons z zs ih =>
    intro xs hz hl hx
    cases xs with
    | nil => simp at hl
    | cons x xs =>
      simp only [List.zipWith_cons_cons]
      rw [hz z (List.mem_cons_self _ _), hx x (List.mem_cons_self _ _),
        ih xs (fun y hy => hz y (List.mem_cons_of_mem _ hy)) (by simpa using hl)
          (fun y hy => hx y (List.mem_cons_of_mem _ hy))]

/-- Summing a list of all-zero tensors with a list of tensors of the same shapes and
sizes, in either order, gives the latter. -/
theorem addLists_zero {α : Type} (E : ElementOps α) :
    ∀ (Z L : List (NDArrayView α)),
      (∀ z ∈ Z, ∀ x ∈ z.data, x = E.zero) →
      L.map (fun v => v.shape) = Z.map (fun v => v.shape) →
      L.map (fun v => v.data.length) = Z.map (fun v => v.data.length) →
      (∀ l ∈ L, ∀ x ∈ l.data, E.add E.zero x = x ∧ E.add x E.zero = x) →
      addLists E Z L = L ∧ addLists E L Z = L := by
  intro Z
  induction Z with
  | nil =>
    intro L _ hs _ _
    cases L with
    | nil => exact ⟨rfl, rfl⟩
    | cons l L => simp at hs
  | cons z Z ih =>
    intro L hz hs hn hadd
    cases L with
    | nil => simp at hs
    | cons l L =>
      simp only [List.map_cons, List.cons.injEq] at hs hn
      obtain ⟨h1, h2⟩ := ih L (fun y hy => hz y (List.mem_cons_of_mem _ hy)) hs.2 hn.2
        (fun y hy => hadd y (List.mem_cons_of_mem _ hy))
      have hl := hadd l (List.mem_cons_self _ _)
      have hzz := hz z (List.mem_cons_self _ _)
      have e1 : addInPlace E z l = l := by
        unfold addInPlace
        rw [zipWith_add_zero_left E z.data l.data hzz hn.1.symm (fun x hx => (hl x hx).1),
          ← hs.1]
      have e2 : addInPlace E l z = l := by
        unfold addInPlace
        rw [zipWith_add_zero_right E z.data l.data hzz hn.1.symm (fun x hx => (hl x hx).2)]
      unfold addLists at h1 h2 ⊢
      simp only [List.zipWith_cons_cons, e1, e2, h1, h2, and_self]

/-- What a worker without data hands to the collective: zero tensors of the shapes of
the parameters, two zero scalars, and its sample count converted to double. -/
theorem contribution_of_empty {α : Type} (E : ElementOps α) (IsEmpty : MinibatchInfo α → Bool)
    (gv : GradientValues α) (info : MinibatchInfo α) (hempty : IsEmpty info = true) :
    contribution E IsEmpty gv info
      = gv.map (fun g => NDArrayView.filled E.zero g.1.shape)
          ++ [NDArrayView.filled E.zero [1], NDArrayView.filled E.zero [1],
              NDArrayView.filled (E.ofSizeT info.numberOfSamples) [1]] := by
  simp [contribution, substituteIfEmpty, hempty, PrepaireZeroGradients, valuesToAggregate,
    Function.comp_def]

/-- C7 (neutral zero contribution): a worker whose `info` is empty, with a sample count
of 0, hands to the collective zero tensors of the shapes of the parameters, two zero
scalars and the count 0 as a double.  If the double 0 is the zero element and adding
the zero element leaves the values of `L` unchanged, then for every list `L` of the
same length whose tensors have the same shapes and sizes the element-wise sum of
that list with `L`, in either order, is `L`. -/
theorem empty_worker_contribution_is_neutral {α : Type} (E : ElementOps α)
    (IsEmpty : MinibatchInfo α → Bool) (gv : GradientValues α) (info : MinibatchInfo α)
    (L : List (NDArrayView α))
    (hempty : IsEmpty info = true) (hcount : info.numberOfSamples = 0)
    (hof : E.ofSizeT 0 = E.zero)
    (hzero : ∀ l ∈ L, ∀ x ∈ l.data, E.add E.zero x = x ∧ E.add x E.zero = x)
    (hshape : L.map (fun v => v.shape)
      = (contribution E IsEmpty gv info).map (fun v => v.shape))
    (hsize : L.map (fun v => v.data.length)
      = (contribution E IsEmpty gv info).map (fun v => v.data.length)) :
    contribution E IsEmpty gv info
        = gv.map (fun g => NDArrayView.filled E.zero g.1.shape)
            ++ [NDArrayView.filled E.zero [1], NDArrayView.filled E.zero [1],
                NDArrayView.filled E.zero [1]]
    ∧ L.length = gv.length + 3
    ∧ addLists E (contribution E IsEmpty gv info) L = L
    ∧ addLists E L (contribution E IsEmpty gv info) = L
    ∧ allReduceSum E [contribution E IsEmpty gv info, L] = L
    ∧ allReduceSum E [L, contribution E IsEmpty gv info] = L := by
  have hc : contribution E IsEmpty gv info
      = gv.map (fun g => NDArrayView.filled E.zero g.1.shape)
          ++ [NDArrayView.filled E.zero [1], NDArrayView.filled E.zero [1],
              NDArrayView.filled E.zero [1]] := by
    rw [contribution_of_empty E IsEmpty gv info hempty, hcount, hof]
  have hz : ∀ z ∈ contribution E IsEmpty gv info, ∀ x ∈ z.data, x = E.zero := by
    rw [hc]
    intro z hzmem x hx
    simp only [List.mem_append, List.mem_map, List.mem_cons, List.mem_singleton,
      List.not_mem_nil, or_false] at hzmem
    rcases hzmem with ⟨g, _, rfl⟩ | rfl | rfl | rfl <;>
      exact List.eq_of_mem_replicate hx
  have hlen : L.length = gv.length + 3 := by
    have := congrArg List.length hshape
    rw [List.length_map, List.length_map, hc] at this
    simpa using this
  obtain ⟨h1, h2⟩ := addLists_zero E _ L hz hshape hsize hzero
  exact ⟨hc, hlen, h1, h2, h1, h2⟩

theorem two_pow_ulpExponent_le (fuel : Nat) : ∀ n : Nat, 1 ≤ n → 2 ^ ulpExponent fuel n ≤ n := by
  induction fuel with
  | zero => intro n hn; simpa [ulpExponent] using hn
  | succ fuel ih =>
    intro n hn
    unfold ulpExponent
    split
    · simpa using hn
    · rename_i hge
      have h2 : 1 ≤ n / 2 := by
        have : (2 : Nat) ^ 53 ≤ n := Nat.le_of_not_lt hge
        omega
      have := ih (n / 2) h2
      rw [Nat.pow_succ]
      omega

theorem roundToDouble_pos (n : Nat) (hn : 1 ≤ n) : 1 ≤ roundToDouble n := by
  have hle := two_pow_ulpExponent_le 1024 n hn
  have hpow : 0 < 2 ^ ulpExponent 1024 n := Nat.pow_pos (by decide)
  have hq : 0 < n / 2 ^ ulpExponent 1024 n := Nat.div_pos hle hpow
  unfold roundToDouble
  simp only
  split
  · exact Nat.mul_pos hq hpow
  · split
    · exact Nat.mul_pos (Nat.succ_pos _) hpow
    · split
      · exact Nat.mul_pos hq hpow
      · exact Nat.mul_pos (Nat.succ_pos _) hpow

theorem roundToDouble_eq_zero (n : Nat) : roundToDouble n = 0 ↔ n = 0 := by
  constructor
  · intro h
    by_contra hne
    have := roundToDouble_pos n (Nat.pos_of_ne_zero hne)
    omega
  · rintro rfl
    decide

theorem foldl_roundToDouble_eq_zero (bs : List Nat) :
    ∀ a : Nat, bs.foldl (fun a b => roundToDouble (a + b)) a = 0 ↔ a = 0 ∧ ∀ b ∈ bs, b = 0 := by
  induction bs with
  | nil => intro a; simp
  | cons b bs ih =>
    intro a
    simp only [List.foldl_cons, ih, roundToDouble_eq_zero, List.mem_cons, forall_eq_or_imp]
    constructor
    · rintro ⟨h, hbs⟩
      exact ⟨by omega, by omega, hbs⟩
    · rintro ⟨ha, hb, hbs⟩
      exact ⟨by omega, hbs⟩

theorem doubleSum_eq_zero (counts : List Nat) : doubleSum counts = 0 ↔ ∀ c ∈ counts, c = 0 := by
  cases counts with
  | nil => simp [doubleSum]
  | cons c cs =>
    simp only [doubleSum, foldl_roundToDouble_eq_zero, roundToDouble_eq_zero, List.mem_map,
      List.mem_cons, forall_eq_or_imp]
    constructor
    · rintro ⟨hc, h⟩
      refine ⟨hc, fun x hx => ?_⟩
      exact (roundToDouble_eq_zero x).1 (h _ ⟨x, hx, rfl⟩)
    · rintro ⟨hc, h⟩
      refine ⟨hc, ?_⟩
      rintro _ ⟨x, hx, rfl⟩
      exact (roundToDouble_eq_zero x).2 (h x hx)

/-- In a round in which every worker aggregates, computing in binary64, every worker
reads back the binary64 sum of the local counts, reduced to a `size_t`. -/
theorem aggregating_round_doubleSum (IsEmpty : MinibatchInfo Nat → Bool)
    (turns : List (WorkerTurn Nat))
    (hagg : ∀ t ∈ turns, t.m_distributeAfterSamples ≤ t.m_totalNumberOfSamplesSeen)
    (hlen : ∀ t ∈ turns, ∀ u ∈ turns, t.gradientValues.length = u.gradientValues.length) :
    ∀ res ∈ runWorkers ieeeDouble IsEmpty (List.range turns.length) [] turns,
      res.learnerInfo.numberOfSamples
        = doubleSum (turns.map (fun t => t.info.numberOfSamples)) % SIZE_T_MOD := by
  intro res hres
  obtain ⟨t, before, after, ht, heq, rfl⟩ := runWorkers_mem ieeeDouble IsEmpty _ turns [] res hres
  rw [update_numberOfSamples ieeeDouble IsEmpty _ before after t (hagg t ht), heq,
    List.nil_append]
  cases turns with
  | nil => simp at ht
  | cons t0 rest =>
    have hshape := allReduceSum_endsWithCount ieeeDouble IsEmpty t0.gradientValues.length t0 rest
      (fun u hu => hlen u hu t0 (List.mem_cons_self _ _))
    rw [readBack_endsWithCount ieeeDouble _ _ _ _ hshape]
    simp only [List.map_cons, doubleSum, List.map_map, Function.comp_def]
    rfl

/-- C10 (end of stream only when no worker has data): take a round in which every
worker aggregates, all with the same number of gradient entries, where each local
learner returns true and leaves `info.numberOfSamples` as it finds it and `info` is
empty exactly when `numberOfSamples` is 0.  Computing in binary64: if some worker
brought a non-zero count (and the summed count is below `2 ^ 64`, so that it
converts back to a `size_t`), `Update` returns true on every worker, the ones with
an empty minibatch included; if every worker brought 0 samples, `Update` returns
false on every worker. -/
theorem end_of_stream_when_no_worker_has_data (IsEmpty : MinibatchInfo Nat → Bool)
    (turns : List (WorkerTurn Nat))
    (hempty : ∀ i : MinibatchInfo Nat, IsEmpty i = true ↔ i.numberOfSamples = 0)
    (hagg : ∀ t ∈ turns, t.m_distributeAfterSamples ≤ t.m_totalNumberOfSamplesSeen)
    (hlen : ∀ t ∈ turns, ∀ u ∈ turns, t.gradientValues.length = u.gradientValues.length)
    (hlearner : ∀ t ∈ turns, ∀ gv i,
      (t.m_learner.Update gv i 0).1 = true
      ∧ (t.m_learner.Update gv i 0).2.2.numberOfSamples = i.numberOfSamples) :
    ∃ results, lockStepRound ieeeDouble IsEmpty turns = some results
      ∧ results.length = turns.length
      ∧ ((∃ t ∈ turns, t.info.numberOfSamples ≠ 0) →
          doubleSum (turns.map (fun t => t.info.numberOfSamples)) < SIZE_T_MOD →
          ∀ res ∈ results, res.returned = true)
      ∧ ((∀ t ∈ turns, t.info.numberOfSamples = 0) → ∀ res ∈ results, res.returned = false) := by
  refine ⟨_, lockStepRound_aggregating ieeeDouble IsEmpty turns hagg,
    runWorkers_length ieeeDouble IsEmpty _ turns [], ?_, ?_⟩
  · rintro ⟨t1, ht1, hne⟩ hdef res hres
    have hcount := aggregating_round_doubleSum IsEmpty turns hagg hlen res hres
    obtain ⟨t, before, after, ht, -, rfl⟩ := runWorkers_mem ieeeDouble IsEmpty _ turns [] res hres
    have hl := hlearner t ht
      (t.update ieeeDouble IsEmpty (List.range turns.length) before after).learnerGradientValues
      (t.update ieeeDouble IsEmpty (List.range turns.length) before after).learnerInfo
    have hpos : doubleSum (turns.map (fun t => t.info.numberOfSamples)) % SIZE_T_MOD ≠ 0 := by
      rw [Nat.mod_eq_of_lt hdef, Ne, doubleSum_eq_zero]
      intro h0
      exact hne (h0 _ (List.mem_map_of_mem _ ht1))
    have h1 : (t.update ieeeDouble IsEmpty (List.range turns.length) before after).learnerResult
        = true := hl.1
    have h2 : (t.update ieeeDouble IsEmpty (List.range turns.length) before
          after).info.numberOfSamples
        = doubleSum (turns.map (fun t => t.info.numberOfSamples)) % SIZE_T_MOD :=
      hl.2.trans hcount
    have hne' : IsEmpty (t.update ieeeDouble IsEmpty (List.range turns.length) before
        after).info = false := by
      rw [Bool.eq_false_iff, Ne, hempty, h2]
      exact hpos
    have hret : (t.update ieeeDouble IsEmpty (List.range turns.length) before after).returned
        = ((t.update ieeeDouble IsEmpty (List.range turns.length) before after).learnerResult
            && !IsEmpty (t.update ieeeDouble IsEmpty (List.range turns.length) before
              after).info) := rfl
    rw [hret, h1, hne']
    rfl
  · intro hall res hres
    have hcount := aggregating_round_doubleSum IsEmpty turns hagg hlen res hres
    obtain ⟨t, before, after, ht, -, rfl⟩ := runWorkers_mem ieeeDouble IsEmpty _ turns [] res hres
    have hl := hlearner t ht
      (t.update ieeeDouble IsEmpty (List.range turns.length) before after).learnerGradientValues
      (t.update ieeeDouble IsEmpty (List.range turns.length) before after).learnerInfo
    have hzero : doubleSum (turns.map (fun t => t.info.numberOfSamples)) % SIZE_T_MOD = 0 := by
      have : doubleSum (turns.map (fun t => t.info.numberOfSamples)) = 0 := by
        rw [doubleSum_eq_zero]
        intro x hx
        obtain ⟨u, hu, rfl⟩ := List.mem_map.1 hx
        exact hall u hu
      rw [this]
      rfl
    have h2 : (t.update ieeeDouble IsEmpty (List.range turns.length) before
          after).info.numberOfSamples
        = doubleSum (turns.map (fun t => t.info.numberOfSamples)) % SIZE_T_MOD :=
      hl.2.trans hcount
    have he : IsEmpty (t.update ieeeDouble IsEmpty (List.range turns.length) before
        after).info = true := by
      rw [hempty, h2]
      exact hzero
    have hret : (t.update ieeeDouble IsEmpty (List.range turns.length) before after).returned
        = ((t.update ieeeDouble IsEmpty (List.range turns.length) before after).learnerResult
            && !IsEmpty (t.update ieeeDouble IsEmpty (List.range turns.length) before
              after).info) := rfl
    rw [hret, he]
    simp

/-! ## Concrete rounds: witnesses and counterexamples -/

theorem idleLearner_keeps (turns : List (WorkerTurn Nat))
    (h : ∀ t ∈ turns, t.m_learner = idleLearner) :
    ∀ t ∈ turns, ∀ gv i,
      (t.m_learner.Update gv i 0).1 = true
      ∧ (t.m_learner.Update gv i 0).2.2.numberOfSamples = i.numberOfSamples := by
  intro t ht gv i
  rw [h t ht]
  exact ⟨rfl, rfl⟩

theorem isEmptyByCount_iff (i : MinibatchInfo Nat) :
    isEmptyByCount i = true ↔ i.numberOfSamples = 0 := by
  simp [isEmptyByCount]

/-- Witness of C2 as amended: workers bringing 10, 0 and 25 samples all read back 35. -/
theorem aggregated_count_is_sum_below_2_pow_53_witness :
    ∃ results, lockStepRound ieeeDouble isEmptyByCount threeWorkers = some results
      ∧ results.length = 3
      ∧ ∀ res ∈ results, res.learnerInfo.numberOfSamples = 35 :=
  aggregated_count_is_sum_below_2_pow_53 ieeeDouble isEmptyByCount threeWorkers
    ieeeDouble_conv ieeeDouble_add (by decide) (by decide) (by decide)

/-- Counterexample to C2 as stated: two aggregating workers bring `2 ^ 53` samples and
1 sample; the local counts sum to `2 ^ 53 + 1`, yet both workers read back `2 ^ 53`,
the binary64 nearest to the sum. -/
theorem aggregated_count_rounds_above_2_pow_53 :
    (largeCountWorkers.all (fun t => t.aggregates)) = true
    ∧ (largeCountWorkers.map (fun t => t.info.numberOfSamples)).sum = 9007199254740993
    ∧ (lockStepRound ieeeDouble isEmptyByCount largeCountWorkers).map
        (fun results => results.map (fun res => res.learnerInfo.numberOfSamples))
      = some [9007199254740992, 9007199254740992] := by
  decide

/-- Witness of C4 as amended: two workers with threshold 0 and different local counts
complete three rounds and end with equal counters. -/
theorem counters_agree_when_equal_at_entry_witness :
    ∃ ws' c', lockStepRun ieeeDouble isEmptyByCount 3 0 immediateWorkers = some ws'
      ∧ ws'.length = 2
      ∧ ∀ w ∈ ws', w.m_distributeAfterSamples = 0 ∧ w.m_totalNumberOfSamplesSeen = c' :=
  (counters_agree_when_equal_at_entry ieeeDouble isEmptyByCount).2 3 0 immediateWorkers 0
    (by decide)

/-- Counterexample to C4 as stated: two workers share the threshold 10 and start at 0.
In the warm-up round they bring 10 and 12 samples and end it with counters 10 and
12.  In the next round both aggregate, each bringing 5 samples; both add the sum 10
and end the round with counters 20 and 22. -/
theorem counters_differ_after_unequal_warmup :
    (lockStepRun ieeeDouble isEmptyByCount 1 0 warmupWorkers).map
        (fun ws => ws.map (fun w => w.m_totalNumberOfSamplesSeen)) = some [10, 12]
    ∧ (lockStepRun ieeeDouble isEmptyByCount 1 0 warmupWorkers).map
        (fun ws => ws.map (fun w => (w.turn 1).aggregates)) = some [true, true]
    ∧ (lockStepRun ieeeDouble isEmptyByCount 2 0 warmupWorkers).map
        (fun ws => ws.map (fun w => w.m_totalNumberOfSamplesSeen)) = some [20, 22] := by
  decide

/-- Witness of C7: the list of a worker without data over one scalar parameter, summed
with the list of a worker with gradient 4, statistics 2 and 3 and 5 samples. -/
theorem empty_worker_contribution_is_neutral_witness :
    addLists ieeeDouble
        (contribution ieeeDouble isEmptyByCount (simpleBatch 9 0).1 (simpleBatch 9 0).2)
        [scalar 4, scalar 2, scalar 3, scalar 5]
      = [scalar 4, scalar 2, scalar 3, scalar 5] :=
  (empty_worker_contribution_is_neutral ieeeDouble isEmptyByCount (simpleBatch 9 0).1
    (simpleBatch 9 0).2 [scalar 4, scalar 2, scalar 3, scalar 5]
    (by decide) (by decide) (by decide) (by decide) (by decide) (by decide)).2.2.1

/-- Witness of C10: of three workers one has no data; all three are told to go on.  Of
two workers without data both are told to stop. -/
theorem end_of_stream_when_no_worker_has_data_witness :
    (∃ results, lockStepRound ieeeDouble isEmptyByCount threeWorkers = some results
      ∧ results.length = 3 ∧ ∀ res ∈ results, res.returned = true)
    ∧ (∃ results, lockStepRound ieeeDouble isEmptyByCount idleWorkers = some results
      ∧ results.length = 2 ∧ ∀ res ∈ results, res.returned = false) :=
  ⟨(end_of_stream_when_no_worker_has_data isEmptyByCount threeWorkers
      isEmptyByCount_iff (by decide) (by decide)
      (idleLearner_keeps threeWorkers (by
        intro t ht
        simp only [threeWorkers, List.mem_cons, List.mem_singleton, List.not_mem_nil,
          or_false] at ht
        rcases ht with rfl | rfl | rfl <;> rfl))).imp
      (fun _ h => ⟨h.1, h.2.1,
        h.2.2.1 ⟨simpleTurn 0 0 1 10, List.mem_cons_self _ _, by decide⟩ (by decide)⟩),
   (end_of_stream_when_no_worker_has_data isEmptyByCount idleWorkers
      isEmptyByCount_iff (by decide) (by decide)
      (idleLearner_keeps idleWorkers (by
        intro t ht
        simp only [idleWorkers, List.mem_cons, List.mem_singleton, List.not_mem_nil,
          or_false] at ht
        rcases ht with rfl | rfl <;> rfl))).imp
      (fun _ h => ⟨h.1, h.2.1, h.2.2.2 (by decide)⟩)⟩

end CNTK
